import Mathlib

/-!
# Verification of the ZUN protocol codec (`src/zun/encoder.ts`, `src/zun/types.ts`)

Shallow embedding of the ZUN binary serialization format used by the Zetrafi
client.  Byte buffers are modelled as `List Nat` (each element a byte value);
JavaScript strings are modelled by their UTF-8 byte sequences (the source's
`TextEncoder`/`TextDecoder` pair is the identity on these byte sequences for
valid text, so string values and map keys are carried as raw bytes).
JavaScript numbers are IEEE-754 binary64 values, modelled by their 64-bit
bit pattern (a `Nat`); the predicates the encoder applies to a number
(`Number.isInteger`, range comparisons) are computed from the bit pattern.

The decoder (`ZunDecoder`) keeps a cursor (`this.offset`) into a fixed buffer.
Each decoding function is embedded as a function from a buffer and a start
offset to `Except ZunErr (result × new offset)`, paired with a ghost
"high-water mark": the largest cursor value assigned during the call.  The
ghost component changes no behaviour; it only records cursor movement so that
statements about "the cursor never passes the end of the buffer" can be made.
Recursion is fuelled; the top-level entry points supply ample fuel, and all
theorems about non-concrete buffers are conditioned on the parse succeeding,
never on the specific amount of fuel.
-/

namespace Zun

/-- Byte buffers and UTF-8 byte strings. -/
abbrev Bytes := List Nat

/-- Error taxonomy of the codec (spec section 7):
`invalidRoot` is the encoder's `Root value must be ZunArray or ZunObject`,
`bufferUnderrun` is the decoder's `Unexpected end of buffer`,
`unknownTag b` is the decoder's `Unknown type byte`. -/
inductive ZunErr where
  | invalidRoot
  | bufferUnderrun
  | unknownTag (b : Nat)
deriving DecidableEq, Repr

/-- The ZUN value model (`ZunValue` in `types.ts`): null, boolean, number
(one numeric type, as in JavaScript, held as an IEEE-754 binary64 bit
pattern), string (UTF-8 bytes), array, and object (entry list in property
order).  The source's ad hoc `__zunType` marker is not part of the model; a
map *entry* whose key is the literal string `__zunType` is representable. -/
inductive Value where
  | vNull
  | vBool (b : Bool)
  | vNum (p : Nat)
  | vText (s : Bytes)
  | vList (xs : List Value)
  | vMap (m : List (Bytes × Value))

/-- The UTF-8 bytes of the string `"__zunType"`. -/
def zunTypeKey : Bytes := [95, 95, 122, 117, 110, 84, 121, 112, 101]

/-- The UTF-8 bytes of the string `"data"`. -/
def dataKey : Bytes := [100, 97, 116, 97]

/-- The UTF-8 bytes of the string `"traceback"`. -/
def tracebackKey : Bytes := [116, 114, 97, 99, 101, 98, 97, 99, 107]

/-- The response envelope (`ZunResponse` in `types.ts`). -/
structure ZunResponse where
  data : Option (List Value) := none
  traceback : Option (List Value) := none

/-! ## IEEE-754 binary64 arithmetic on bit patterns

`JavaScript` number semantics needed by the encoder: `Number.isInteger` and
the exact integer value of an integral double, both computed from the 64-bit
pattern, plus the pattern of an exact small integer (what `DataView.getInt32`
hands back as a number). -/

/-- `Number.isInteger` on a binary64 bit pattern: false for NaN/Infinity,
true for a finite value whose fractional part is zero. -/
def floatIsInteger (p : Nat) : Bool :=
  let e : Nat := p / 2 ^ 52 % 2 ^ 11
  let f : Nat := p % 2 ^ 52
  if e == 2047 then false
  else
    let m : Nat := if e == 0 then f else 2 ^ 52 + f
    let ex : Int := (if e == 0 then (1 : Int) else (e : Int)) - 1075
    m == 0 || (if 0 ≤ ex then true else m % 2 ^ (-ex).toNat == 0)

/-- The exact integer value of an integral binary64 bit pattern
(meaningful when `floatIsInteger` holds). -/
def floatToInt (p : Nat) : Int :=
  let e : Nat := p / 2 ^ 52 % 2 ^ 11
  let f : Nat := p % 2 ^ 52
  let m : Nat := if e == 0 then f else 2 ^ 52 + f
  let ex : Int := (if e == 0 then (1 : Int) else (e : Int)) - 1075
  let mag : Nat := if 0 ≤ ex then m * 2 ^ ex.toNat else m / 2 ^ (-ex).toNat
  if p / 2 ^ 63 % 2 == 1 then -(mag : Int) else (mag : Int)

/-- Position of the leading bit of `m` (floor of `log2 m`) for `m < 2 ^ 64`. -/
def floorLog2 (m : Nat) : Nat :=
  (List.range 64).foldl (fun acc k => if 2 ^ k ≤ m then k else acc) 0

/-- The binary64 bit pattern of an exact integer with `|i| < 2 ^ 53`
(the value `DataView.getInt32` returns, seen as a JavaScript number). -/
def intToFloat (i : Int) : Nat :=
  if i == 0 then 0
  else
    let s : Nat := if i < 0 then 1 else 0
    let m : Nat := i.natAbs
    let k : Nat := floorLog2 m
    s * 2 ^ 63 + (1023 + k) * 2 ^ 52 + (m * 2 ^ (52 - k) - 2 ^ 52)

/-! ## Byte-level helpers (`DataView` big-endian fields) -/

/-- Big-endian value of a byte list (used when reading fixed-width fields). -/
def beVal (l : Bytes) : Nat := l.foldl (fun a b => 256 * a + b) 0

/-- `DataView.setUint32(_, n, false)`: 4 bytes, big-endian, wraps mod `2^32`. -/
def u32BE (n : Nat) : Bytes :=
  [n / 2 ^ 24 % 256, n / 2 ^ 16 % 256, n / 2 ^ 8 % 256, n % 256]

/-- `DataView.setUint16(_, n, false)`: 2 bytes, big-endian, wraps mod `2^16`. -/
def u16BE (n : Nat) : Bytes := [n / 2 ^ 8 % 256, n % 256]

/-- `DataView.setInt32(_, i, false)`: two's-complement 4-byte big-endian. -/
def int32BE (i : Int) : Bytes := u32BE (i.emod (2 ^ 32)).toNat

/-- 8 bytes, big-endian, of a binary64 bit pattern
(`DataView.setFloat64(_, v, false)` preserves the pattern exactly). -/
def be64 (p : Nat) : Bytes :=
  [p / 2 ^ 56 % 256, p / 2 ^ 48 % 256, p / 2 ^ 40 % 256, p / 2 ^ 32 % 256,
   p / 2 ^ 24 % 256, p / 2 ^ 16 % 256, p / 2 ^ 8 % 256, p % 256]

/-! ## Encoder (`ZunEncoder`) -/

/-- The key filter in `ZunEncoder.encodeObject`:
`Object.keys(obj).filter(k => k !== '__zunType')`. -/
def objKeys (m : List (Bytes × Value)) : List (Bytes × Value) :=
  m.filter (fun e => e.1 != zunTypeKey)

mutual

/-- `ZunEncoder.encodeValue`: tag dispatch on the value's runtime shape.
The number branch mirrors
`Number.isInteger(value) && value >= -2147483648 && value <= 2147483647`. -/
def encodeValue : Value → Bytes
  | .vNull => [0]
  | .vBool b => [1, if b then 1 else 0]
  | .vNum p =>
    if floatIsInteger p ∧ -2147483648 ≤ floatToInt p ∧ floatToInt p ≤ 2147483647
    then 2 :: int32BE (floatToInt p)
    else 3 :: be64 p
  | .vText s => 4 :: (u32BE s.length ++ s)
  | .vList xs => encodeArray xs
  | .vMap m => encodeObject m

/-- `ZunEncoder.encodeArray`: tag `0x01`, 4-byte big-endian element count,
then each element's value encoding in order. -/
def encodeArray (xs : List Value) : Bytes :=
  1 :: (u32BE xs.length ++ encodeItems xs)

/-- The element loop of `encodeArray`. -/
def encodeItems : List Value → Bytes
  | [] => []
  | x :: xs => encodeValue x ++ encodeItems xs

/-- `ZunEncoder.encodeObject`: tag `0x02`, 4-byte big-endian count of the
keys *after* filtering out `__zunType`, then per key: 2-byte big-endian
key byte length, the key bytes, the value encoding. -/
def encodeObject (m : List (Bytes × Value)) : Bytes :=
  2 :: (u32BE (objKeys m).length ++ encodeEntries m)

/-- The entry loop of `encodeObject`; entries whose key is `__zunType` are
skipped, which is the same iteration the source performs over the filtered
key list. -/
def encodeEntries : List (Bytes × Value) → Bytes
  | [] => []
  | (k, v) :: rest =>
    if k == zunTypeKey then encodeEntries rest
    else (u16BE k.length ++ k) ++ (encodeValue v ++ encodeEntries rest)

end

/-- `ZunEncoder.encode`: the root must be an array or an object. -/
def encodeZun : Value → Except ZunErr Bytes
  | .vList xs => .ok (encodeArray xs)
  | .vMap m => .ok (encodeObject m)
  | _ => .error .invalidRoot

/-! ## Decoder (`ZunDecoder`)

Each function takes the buffer and the current cursor (`this.offset`) and
returns `Except ZunErr (result × cursor after)`, paired with the ghost
high-water mark of the cursor during the call (every value `this.offset` is
set to, including values past the buffer's end -- the source's
`this.offset += keyLength` in `decodeObject` is not bounds-checked). -/

/-- `ZunDecoder.readUInt32BE`: bounds check, then a big-endian read. -/
def readUInt32BE (b : Bytes) (o : Nat) : Except ZunErr (Nat × Nat) :=
  if b.length < o + 4 then .error .bufferUnderrun
  else .ok (beVal ((b.drop o).take 4), o + 4)

/-- `ZunDecoder.readUInt16BE`: bounds check, then a big-endian read. -/
def readUInt16BE (b : Bytes) (o : Nat) : Except ZunErr (Nat × Nat) :=
  if b.length < o + 2 then .error .bufferUnderrun
  else .ok (beVal ((b.drop o).take 2), o + 2)

/-- `ZunDecoder.decodeBoolean`: one payload byte; `0x01` is `true`, every
other byte value is `false`.  (Unreachable from `decodeValue`: the tag
`0x01` is captured by the `ZunType.ARRAY` case of the source's switch.) -/
def decodeBoolean (b : Bytes) (o : Nat) : Except ZunErr (Bool × Nat) :=
  if b.length ≤ o then .error .bufferUnderrun
  else .ok (b.getD o 0 == 1, o + 1)

/-- `ZunDecoder.decodeInt32`: bounds check, 4-byte big-endian signed read;
the result is a JavaScript number, i.e. the binary64 pattern of the integer.
(Unreachable from `decodeValue`: the tag `0x02` is captured by the
`ZunType.OBJECT` case of the source's switch.) -/
def decodeInt32 (b : Bytes) (o : Nat) : Except ZunErr (Nat × Nat) :=
  if b.length < o + 4 then .error .bufferUnderrun
  else
    let u : Nat := beVal ((b.drop o).take 4)
    let i : Int := if 2 ^ 31 ≤ u then (u : Int) - 2 ^ 32 else (u : Int)
    .ok (intToFloat i, o + 4)

/-- `ZunDecoder.decodeDouble`: bounds check, 8-byte big-endian read of the
binary64 bit pattern. -/
def decodeDouble (b : Bytes) (o : Nat) : Except ZunErr (Nat × Nat) :=
  if b.length < o + 8 then .error .bufferUnderrun
  else .ok (beVal ((b.drop o).take 8), o + 8)

/-- `ZunDecoder.decodeString`: 4-byte length, bounds check on the content,
then the content bytes. -/
def decodeString (b : Bytes) (o : Nat) : Except ZunErr (Bytes × Nat) :=
  match readUInt32BE b o with
  | .error e => .error e
  | .ok (n, o1) =>
    if b.length < o1 + n then .error .bufferUnderrun
    else .ok ((b.drop o1).take n, o1 + n)

/-- `obj[key] = value` on a plain JavaScript object: overwrite in place if
the key is present, otherwise append. -/
def objInsert (m : List (Bytes × Value)) (k : Bytes) (v : Value) :
    List (Bytes × Value) :=
  if m.any (fun e => e.1 == k) then
    m.map (fun e => if e.1 == k then (k, v) else e)
  else m ++ [(k, v)]

/-- The object built by `decodeObject` from the wire entries, in read order.
The source object starts with a non-`Value` marker `__zunType: 'object'` in
slot 0; a wire entry whose key is `__zunType` overwrites that marker in place
(so it lands in front of every other entry), and if the marker is never
overwritten it holds no `Value` and is dropped from the model. -/
def objFromWire (es : List (Bytes × Value)) : List (Bytes × Value) :=
  let st := es.foldl
    (fun (st : Option Value × List (Bytes × Value)) e =>
      if e.1 == zunTypeKey then (some e.2, st.2)
      else (st.1, objInsert st.2 e.1 e.2))
    (none, [])
  match st.1 with
  | some v => (zunTypeKey, v) :: st.2
  | none => st.2

mutual

/-- `ZunDecoder.decodeValue`: end-of-buffer check, read the tag byte, then
dispatch in the order of the source's `switch`: `ZunType.ARRAY` (`0x01`),
`ZunType.OBJECT` (`0x02`), `0x00`, `0x01`, `0x02`, `0x03`, `0x04`.  The
`0x01` boolean and `0x02` int32 cases are therefore dead: they repeat the
labels of the first two cases, and in a JavaScript switch the first matching
case wins. -/
def decodeValue (fuel : Nat) (b : Bytes) (o : Nat) :
    Except ZunErr (Value × Nat) × Nat :=
  match fuel with
  | 0 => (.error .bufferUnderrun, o)
  | fuel + 1 =>
    if b.length ≤ o then (.error .bufferUnderrun, o)
    else
      let tag := b.getD o 0
      if tag == 1 then
        match decodeArray fuel b (o + 1) with
        | (.error e, mx) => (.error e, max (o + 1) mx)
        | (.ok (xs, p), mx) => (.ok (.vList xs, p), max (o + 1) mx)
      else if tag == 2 then
        match decodeObject fuel b (o + 1) with
        | (.error e, mx) => (.error e, max (o + 1) mx)
        | (.ok (m, p), mx) => (.ok (.vMap m, p), max (o + 1) mx)
      else if tag == 0 then (.ok (.vNull, o + 1), o + 1)
      else if tag == 1 then
        match decodeBoolean b (o + 1) with
        | .error e => (.error e, o + 1)
        | .ok (x, p) => (.ok (.vBool x, p), p)
      else if tag == 2 then
        match decodeInt32 b (o + 1) with
        | .error e => (.error e, o + 1)
        | .ok (x, p) => (.ok (.vNum x, p), p)
      else if tag == 3 then
        match decodeDouble b (o + 1) with
        | .error e => (.error e, o + 1)
        | .ok (x, p) => (.ok (.vNum x, p), p)
      else if tag == 4 then
        match decodeString b (o + 1) with
        | .error e => (.error e, o + 1)
        | .ok (x, p) => (.ok (.vText x, p), p)
      else (.error (.unknownTag tag), o + 1)
termination_by structural fuel

/-- `ZunDecoder.decodeArray`: 4-byte element count, then the element loop. -/
def decodeArray (fuel : Nat) (b : Bytes) (o : Nat) :
    Except ZunErr (List Value × Nat) × Nat :=
  match fuel with
  | 0 => (.error .bufferUnderrun, o)
  | fuel + 1 =>
    match readUInt32BE b o with
    | .error e => (.error e, o)
    | .ok (n, o1) =>
      match decodeItemsLoop fuel b o1 n with
      | (r, mx) => (r, max o1 mx)
termination_by structural fuel

/-- The element loop of `decodeArray`. -/
def decodeItemsLoop (fuel : Nat) (b : Bytes) (o : Nat) (count : Nat) :
    Except ZunErr (List Value × Nat) × Nat :=
  match fuel with
  | 0 => (.error .bufferUnderrun, o)
  | fuel + 1 =>
    match count with
    | 0 => (.ok ([], o), o)
    | count + 1 =>
      match decodeValue fuel b o with
      | (.error e, mx) => (.error e, mx)
      | (.ok (v, o1), mx) =>
        match decodeItemsLoop fuel b o1 count with
        | (.error e, mx2) => (.error e, max mx mx2)
        | (.ok (vs, o2), mx2) => (.ok (v :: vs, o2), max mx mx2)
termination_by structural fuel

/-- `ZunDecoder.decodeObject`: 4-byte entry count, then the entry loop,
then the object is assembled by keyed assignment. -/
def decodeObject (fuel : Nat) (b : Bytes) (o : Nat) :
    Except ZunErr (List (Bytes × Value) × Nat) × Nat :=
  match fuel with
  | 0 => (.error .bufferUnderrun, o)
  | fuel + 1 =>
    match readUInt32BE b o with
    | .error e => (.error e, o)
    | .ok (n, o1) =>
      match decodeEntriesLoop fuel b o1 n with
      | (.error e, mx) => (.error e, max o1 mx)
      | (.ok (es, p), mx) => (.ok (objFromWire es, p), max o1 mx)
termination_by structural fuel

/-- The entry loop of `decodeObject`: 2-byte key length, then
`this.buffer.slice(this.offset, this.offset + keyLength)` -- which clamps to
the end of the buffer -- then `this.offset += keyLength` with no bounds
check, then the entry's value. -/
def decodeEntriesLoop (fuel : Nat) (b : Bytes) (o : Nat) (count : Nat) :
    Except ZunErr (List (Bytes × Value) × Nat) × Nat :=
  match fuel with
  | 0 => (.error .bufferUnderrun, o)
  | fuel + 1 =>
    match count with
    | 0 => (.ok ([], o), o)
    | count + 1 =>
      match readUInt16BE b o with
      | .error e => (.error e, o)
      | .ok (kl, o1) =>
        let key := (b.drop o1).take kl
        let o2 := o1 + kl
        match decodeValue fuel b o2 with
        | (.error e, mx) => (.error e, max o2 mx)
        | (.ok (v, o3), mx) =>
          match decodeEntriesLoop fuel b o3 count with
          | (.error e, mx2) => (.error e, max (max o2 mx) mx2)
          | (.ok (es, o4), mx2) => (.ok ((key, v) :: es, o4), max (max o2 mx) mx2)
termination_by structural fuel

end

/-- `ZunDecoder.decode`: a fresh decoder at cursor 0, one `decodeValue`;
bytes after the decoded value are ignored.  (The fuel bound is an artifact
of the embedding; theorems over non-concrete buffers are conditioned on the
parse succeeding.) -/
def decodeZun (b : Bytes) : Except ZunErr Value :=
  match (decodeValue (b.length + 1) b 0).1 with
  | .error e => .error e
  | .ok (v, _) => .ok v

/-- `ZunDecoder.decode` together with the ghost cursor high-water mark. -/
def decodeZunT (b : Bytes) : Except ZunErr Value × Nat :=
  match decodeValue (b.length + 1) b 0 with
  | (.error e, mx) => (.error e, mx)
  | (.ok (v, _), mx) => (.ok v, mx)

/-- Projection used by `decodeResponse`: a `"data"`/`"traceback"` field is
kept only when present and an array (`Array.isArray`). -/
def asListField : Option Value → Option (List Value)
  | some (.vList l) => some l
  | _ => none

/-- JavaScript property read `obj[k]` on the decoded object. -/
def objGet (m : List (Bytes × Value)) (k : Bytes) : Option Value :=
  (m.find? (fun e => e.1 == k)).map (fun e => e.2)

/-- `ZunDecoder.decodeResponse`: run `decodeValue`; a non-object (or falsy,
or array) result gives an empty response; otherwise keep `"data"` and
`"traceback"` only when their values are arrays. -/
def decodeResponse (b : Bytes) : Except ZunErr ZunResponse :=
  match (decodeValue (b.length + 1) b 0).1 with
  | .error e => .error e
  | .ok (v, _) =>
    match v with
    | .vMap m =>
      .ok { data := asListField (objGet m dataKey)
            traceback := asListField (objGet m tracebackKey) }
    | _ => .ok {}

/-! ## Claim C1: round trip -/

/-- C1 (code bug): the spec's round-trip property `decode(encode(v)) = v`
for every `List`/`Map` root fails: `List([Int32(1)])` encodes to
`01 00000001 02 00000001`, and decoding it hits the `ZunType.OBJECT` switch
case on the value tag `0x02` (the int32 case is shadowed), reads the int32
payload `00000001` as a map entry count, and dies with `BufferUnderrun`
instead of returning the original value. -/
theorem c1_int32_roundtrip_fails :
    encodeZun (.vList [.vNum (intToFloat 1)]) = .ok [1, 0, 0, 0, 1, 2, 0, 0, 0, 1] ∧
    decodeZun [1, 0, 0, 0, 1, 2, 0, 0, 0, 1] = .error .bufferUnderrun := by
  constructor
  · simp only [encodeZun, encodeArray, encodeItems, encodeValue]
    rfl
  · rfl

/-! ## Claim C2: decoder cursor bounds -/

/-- C2 (counterexample): on the buffer `02 00000001 0005` (a map with one
entry whose declared key length 5 exceeds the 0 remaining bytes) the key
read is not bounds-checked: the key bytes are clamped and the cursor is
advanced to 12, past the buffer's length 7 -- the claim that the cursor
never exceeds the buffer's length is false. -/
theorem c2_cursor_passes_end :
    (decodeZunT [2, 0, 0, 0, 1, 0, 5]).2 = 12 ∧
    ([2, 0, 0, 0, 1, 0, 5] : Bytes).length = 7 ∧
    ([2, 0, 0, 0, 1, 0, 5] : Bytes).length < (decodeZunT [2, 0, 0, 0, 1, 0, 5]).2 :=
  ⟨rfl, rfl, by decide⟩

/-! ## Claim C3: concrete scenario -/

/-- C3 (counterexample): encoding `List([Map({"a": Int32(1), "b": Text("x")})])`
does not produce the spec's byte string: the map's 4-byte entry count is
`00000002` (two keys), not `00000001`. -/
theorem c3_encoding_differs_from_claimed_bytes :
    encodeZun (.vList [.vMap [([97], .vNum (intToFloat 1)), ([98], .vText [120])]]) =
      .ok [1, 0, 0, 0, 1, 2, 0, 0, 0, 2, 0, 1, 97, 2, 0, 0, 0, 1, 0, 1, 98, 4, 0, 0, 0, 1, 120] ∧
    ([1, 0, 0, 0, 1, 2, 0, 0, 0, 2, 0, 1, 97, 2, 0, 0, 0, 1, 0, 1, 98, 4, 0, 0, 0, 1, 120] : Bytes) ≠
      [1, 0, 0, 0, 1, 2, 0, 0, 0, 1, 0, 1, 97, 2, 0, 0, 0, 1, 0, 1, 98, 4, 0, 0, 0, 1, 120] := by
  constructor
  · simp only [encodeZun, encodeArray, encodeItems, encodeValue, encodeObject, encodeEntries,
      objKeys]
    rfl
  · decide

/-- C3 (amended): the actual encoding of
`List([Map({"a": Int32(1), "b": Text("x")})])` carries entry count
`00000002`; decoding that exact byte sequence does not reproduce the
original value but fails with `BufferUnderrun` (the value tag `0x02` of
`Int32(1)` is dispatched to map decoding, which swallows the second entry),
and decoding the byte sequence the claim wrote down yields the different
value `List([Map({"a": Map({"b": Text("x")})})])`. -/
theorem c3_scenario_actual_behaviour :
    encodeZun (.vList [.vMap [([97], .vNum (intToFloat 1)), ([98], .vText [120])]]) =
      .ok [1, 0, 0, 0, 1, 2, 0, 0, 0, 2, 0, 1, 97, 2, 0, 0, 0, 1, 0, 1, 98, 4, 0, 0, 0, 1, 120] ∧
    decodeZun [1, 0, 0, 0, 1, 2, 0, 0, 0, 2, 0, 1, 97, 2, 0, 0, 0, 1, 0, 1, 98, 4, 0, 0, 0, 1, 120] =
      .error .bufferUnderrun ∧
    decodeZun [1, 0, 0, 0, 1, 2, 0, 0, 0, 1, 0, 1, 97, 2, 0, 0, 0, 1, 0, 1, 98, 4, 0, 0, 0, 1, 120] =
      .ok (.vList [.vMap [([97], .vMap [([98], .vText [120])])]]) := by
  refine ⟨?_, rfl, rfl⟩
  simp only [encodeZun, encodeArray, encodeItems, encodeValue, encodeObject, encodeEntries,
    objKeys]
  rfl

/-! ## Claim C4: truncated buffers -/

/-- C4 (code bug): a strict prefix of a valid encoding need not fail with
`BufferUnderrun`: `List([Bool(false), Int32(1061109567)])` encodes to 12
bytes, and its 11-byte prefix fails with `UnknownTag 0x3F` instead -- the
shadowed bool tag `0x01` is dispatched to list decoding, which misaligns the
parse onto the int32 payload bytes. -/
theorem c4_truncated_decode_not_underrun :
    encodeZun (.vList [.vBool false, .vNum (intToFloat 1061109567)]) =
      .ok [1, 0, 0, 0, 2, 1, 0, 2, 63, 63, 63, 63] ∧
    ([1, 0, 0, 0, 2, 1, 0, 2, 63, 63, 63, 63] : Bytes).take 11 =
      [1, 0, 0, 0, 2, 1, 0, 2, 63, 63, 63] ∧
    11 < ([1, 0, 0, 0, 2, 1, 0, 2, 63, 63, 63, 63] : Bytes).length ∧
    decodeZun [1, 0, 0, 0, 2, 1, 0, 2, 63, 63, 63] = .error (.unknownTag 63) := by
  refine ⟨?_, rfl, by decide, rfl⟩
  simp only [encodeZun, encodeArray, encodeItems, encodeValue]
  rfl

/-! ## Claim C6: number classification -/

/-- C6: a number that is mathematically an integer in
`[-2147483648, 2147483647]` encodes as 5 bytes -- tag `0x02` plus the
4-byte big-endian two's-complement integer -- and every other number
(non-integral, out of range, NaN, ±Infinity) as 9 bytes -- tag `0x03` plus
the 8-byte big-endian IEEE-754 pattern.  In particular `2147483647`
(pattern `0x41DFFFFFFFC00000`) takes tag `0x02`, while `2147483648`
(`0x41E0000000000000`), `-2147483649` (`0xC1E0000000200000`), NaN
(`0x7FF8000000000000`), `+Infinity` (`0x7FF0000000000000`) and `-Infinity`
(`0xFFF0000000000000`) take tag `0x03` and decode back to the exact same
bit pattern. -/
theorem c6_number_classification :
    (∀ p : Nat,
        floatIsInteger p ∧ -2147483648 ≤ floatToInt p ∧ floatToInt p ≤ 2147483647 →
          encodeValue (.vNum p) = 2 :: int32BE (floatToInt p) ∧
          (encodeValue (.vNum p)).length = 5) ∧
    (∀ p : Nat,
        ¬ (floatIsInteger p ∧ -2147483648 ≤ floatToInt p ∧ floatToInt p ≤ 2147483647) →
          encodeValue (.vNum p) = 3 :: be64 p ∧ (encodeValue (.vNum p)).length = 9) ∧
    encodeValue (.vNum 0x41DFFFFFFFC00000) = [2, 127, 255, 255, 255] ∧
    encodeValue (.vNum 0x41E0000000000000) = 3 :: be64 0x41E0000000000000 ∧
    encodeValue (.vNum 0xC1E0000000200000) = 3 :: be64 0xC1E0000000200000 ∧
    encodeValue (.vNum 0x7FF8000000000000) = 3 :: be64 0x7FF8000000000000 ∧
    encodeValue (.vNum 0x7FF0000000000000) = 3 :: be64 0x7FF0000000000000 ∧
    encodeValue (.vNum 0xFFF0000000000000) = 3 :: be64 0xFFF0000000000000 ∧
    decodeZun (encodeValue (.vNum 0x41E0000000000000)) = .ok (.vNum 0x41E0000000000000) ∧
    decodeZun (encodeValue (.vNum 0xC1E0000000200000)) = .ok (.vNum 0xC1E0000000200000) ∧
    decodeZun (encodeValue (.vNum 0x7FF8000000000000)) = .ok (.vNum 0x7FF8000000000000) ∧
    decodeZun (encodeValue (.vNum 0x7FF0000000000000)) = .ok (.vNum 0x7FF0000000000000) ∧
    decodeZun (encodeValue (.vNum 0xFFF0000000000000)) = .ok (.vNum 0xFFF0000000000000) := by
  refine ⟨?_, ?_, ?_, ?_, ?_, ?_, ?_, ?_, ?_, ?_, ?_, ?_, ?_⟩
  · intro p h
    constructor
    · simp only [encodeValue, if_pos h]
    · simp [encodeValue, if_pos h, int32BE, u32BE]
  · intro p h
    constructor
    · simp only [encodeValue, if_neg h]
    · simp [encodeValue, if_neg h, be64]
  all_goals simp only [encodeValue]
  all_goals rfl

/-- C6 (witness): the integer branch at the pattern of `1.0` and the float
branch at the pattern of `1.5`. -/
theorem c6_number_classification_witness :
    encodeValue (.vNum 0x3FF0000000000000) = 2 :: int32BE (floatToInt 0x3FF0000000000000) ∧
    encodeValue (.vNum 0x3FF8000000000000) = 3 :: be64 0x3FF8000000000000 :=
  ⟨(c6_number_classification.1 0x3FF0000000000000 (by decide)).1,
   (c6_number_classification.2.1 0x3FF8000000000000 (by decide)).1⟩

/-! ## Claim C7: root check -/

/-- C7: `encode` fails with `InvalidRoot` on every root that is neither a
`List` nor a `Map`, and produces bytes for every `List` or `Map` root. -/
theorem c7_root_check :
    (∀ xs, encodeZun (.vList xs) = .ok (encodeArray xs)) ∧
    (∀ m, encodeZun (.vMap m) = .ok (encodeObject m)) ∧
    encodeZun .vNull = .error .invalidRoot ∧
    (∀ b, encodeZun (.vBool b) = .error .invalidRoot) ∧
    (∀ p, encodeZun (.vNum p) = .error .invalidRoot) ∧
    (∀ s, encodeZun (.vText s) = .error .invalidRoot) :=
  ⟨fun _ => rfl, fun _ => rfl, rfl, fun _ => rfl, fun _ => rfl, fun _ => rfl⟩

/-! ## Claim C9: the boolean tag -/

/-- C9 (code bug): the decoder never reads a `Bool` at value position: tag
`0x01` is captured by the `ZunType.ARRAY` case, so `[0x01, 0x02]` dies with
`BufferUnderrun` (list count read) instead of giving `Bool(false)`, and
`[0x01, 0x00, 0x00, 0x00, 0x00]` decodes as an empty list.  The
`decodeBoolean` helper itself never rejects its payload byte: `0x01` gives
`true` and any other byte gives `false`, exactly as the claim describes. -/
theorem c9_bool_tag_dispatches_to_array :
    decodeZun [1, 2] = .error .bufferUnderrun ∧
    decodeZun [1, 0, 0, 0, 0] = .ok (.vList []) ∧
    decodeBoolean [1, 2] 1 = .ok (false, 2) ∧
    decodeBoolean [1, 1] 1 = .ok (true, 2) ∧
    (∀ payload : Nat, decodeBoolean [1, payload] 1 = .ok (payload == 1, 2)) :=
  ⟨rfl, rfl, rfl, rfl, fun _ => rfl⟩

/-! ## Claim C10: the `__zunType` filter -/

/-- Entries with the `__zunType` key contribute nothing to the encoding. -/
theorem encodeEntries_filter (m : List (Bytes × Value)) :
    encodeEntries (m.filter (fun e => e.1 != zunTypeKey)) = encodeEntries m := by
  induction m with
  | nil => rfl
  | cons e rest ih =>
    obtain ⟨k, v⟩ := e
    rw [List.filter_cons]
    simp only [bne] at ih ⊢
    cases hk : (k == zunTypeKey) with
    | true => simp [encodeEntries, hk, ih]
    | false => simp [encodeEntries, hk, ih]

/-- C10: the encoder drops every map entry whose key is `__zunType`:
encoding a map equals encoding the map with those entries removed (both the
written entry count and the written entries cover only the other keys), so
such an entry never reaches the wire and is lost on round trip. -/
theorem c10_zunType_entries_dropped :
    (∀ m, encodeObject m = encodeObject (m.filter (fun e => e.1 != zunTypeKey))) ∧
    encodeZun (.vMap [(zunTypeKey, .vNull), ([97], .vNull)]) =
      encodeZun (.vMap [([97], .vNull)]) ∧
    encodeZun (.vMap [(zunTypeKey, .vNull)]) = .ok [2, 0, 0, 0, 0] ∧
    decodeZun [2, 0, 0, 0, 0] = .ok (.vMap []) := by
  refine ⟨?_, ?_, ?_, rfl⟩
  · intro m
    rw [encodeObject, encodeObject, encodeEntries_filter]
    have : objKeys (m.filter (fun e => e.1 != zunTypeKey)) = objKeys m := by
      simp [objKeys, List.filter_filter]
    rw [this]
  · simp only [encodeZun, encodeObject, encodeEntries, objKeys, encodeValue]
    rfl
  · simp only [encodeZun, encodeObject, encodeEntries, objKeys]
    rfl

/-! ## Bounds of the decoder cursor

Whenever a decoding function succeeds, its result offset and every cursor
value it reached stay within the buffer.  (On the failing paths the cursor
can pass the end -- see the C2 counterexample -- but then the error
propagates to the top.) -/

/-- A successful `readUInt32BE` lands exactly 4 checked bytes further. -/
theorem readUInt32BE_ok {b : Bytes} {o n p : Nat}
    (h : readUInt32BE b o = .ok (n, p)) : p = o + 4 ∧ o + 4 ≤ b.length := by
  unfold readUInt32BE at h
  split at h
  · exact absurd h (by simp)
  · next hlen =>
    injection h with h1
    injection h1 with h2 h3
    omega

/-- A successful `readUInt16BE` lands exactly 2 checked bytes further. -/
theorem readUInt16BE_ok {b : Bytes} {o n p : Nat}
    (h : readUInt16BE b o = .ok (n, p)) : p = o + 2 ∧ o + 2 ≤ b.length := by
  unfold readUInt16BE at h
  split at h
  · exact absurd h (by simp)
  · next hlen =>
    injection h with h1
    injection h1 with h2 h3
    omega

/-- A successful `decodeBoolean` consumes one checked byte. -/
theorem decodeBoolean_ok {b : Bytes} {o : Nat} {x : Bool} {p : Nat}
    (h : decodeBoolean b o = .ok (x, p)) : p = o + 1 ∧ o + 1 ≤ b.length := by
  unfold decodeBoolean at h
  split at h
  · exact absurd h (by simp)
  · next hlen =>
    injection h with h1
    injection h1 with h2 h3
    omega

/-- A successful `decodeInt32` consumes 4 checked bytes. -/
theorem decodeInt32_ok {b : Bytes} {o x p : Nat}
    (h : decodeInt32 b o = .ok (x, p)) : p = o + 4 ∧ o + 4 ≤ b.length := by
  unfold decodeInt32 at h
  split at h
  · exact absurd h (by simp)
  · next hlen =>
    injection h with h1
    injection h1 with h2 h3
    omega

/-- A successful `decodeDouble` consumes 8 checked bytes. -/
theorem decodeDouble_ok {b : Bytes} {o x p : Nat}
    (h : decodeDouble b o = .ok (x, p)) : p = o + 8 ∧ o + 8 ≤ b.length := by
  unfold decodeDouble at h
  split at h
  · exact absurd h (by simp)
  · next hlen =>
    injection h with h1
    injection h1 with h2 h3
    omega

/-- A successful `decodeString` moves forward and stays checked in bounds. -/
theorem decodeString_ok {b : Bytes} {o : Nat} {s : Bytes} {p : Nat}
    (h : decodeString b o = .ok (s, p)) : o ≤ p ∧ p ≤ b.length := by
  unfold decodeString at h
  split at h
  · exact absurd h (by simp)
  · next n o1 h32 =>
    obtain ⟨he, hb⟩ := readUInt32BE_ok h32
    split at h
    · exact absurd h (by simp)
    · next hlen =>
      injection h with h1
      injection h1 with h2 h3
      omega

/-- On every successful parse, all five decoding functions end at an offset
inside the buffer, never having moved the cursor past the buffer's end; the
two loops need their entry offset in bounds (their callers establish it from
the preceding checked reads). -/
theorem decodeOk_bounds (fuel : Nat) :
    (∀ b o v p mx, decodeValue fuel b o = (.ok (v, p), mx) →
        o ≤ p ∧ p ≤ b.length ∧ mx ≤ b.length) ∧
    (∀ b o r p mx, decodeArray fuel b o = (.ok (r, p), mx) →
        o ≤ p ∧ p ≤ b.length ∧ mx ≤ b.length) ∧
    (∀ b o c r p mx, o ≤ b.length → decodeItemsLoop fuel b o c = (.ok (r, p), mx) →
        o ≤ p ∧ p ≤ b.length ∧ mx ≤ b.length) ∧
    (∀ b o r p mx, decodeObject fuel b o = (.ok (r, p), mx) →
        o ≤ p ∧ p ≤ b.length ∧ mx ≤ b.length) ∧
    (∀ b o c r p mx, o ≤ b.length → decodeEntriesLoop fuel b o c = (.ok (r, p), mx) →
        o ≤ p ∧ p ≤ b.length ∧ mx ≤ b.length) := by
  induction fuel with
  | zero =>
    refine ⟨?_, ?_, ?_, ?_, ?_⟩
    · intro b o v p mx h; exact absurd h (by simp [decodeValue])
    · intro b o r p mx h; exact absurd h (by simp [decodeArray])
    · intro b o c r p mx _ h; exact absurd h (by simp [decodeItemsLoop])
    · intro b o r p mx h; exact absurd h (by simp [decodeObject])
    · intro b o c r p mx _ h; exact absurd h (by simp [decodeEntriesLoop])
  | succ fuel ih =>
    obtain ⟨ihv, iha, ihl, iho, ihe⟩ := ih
    refine ⟨?_, ?_, ?_, ?_, ?_⟩
    · -- decodeValue
      intro b o v p mx h
      rw [decodeValue] at h
      split at h
      · exact absurd h (by simp)
      next hlt =>
      dsimp only at h
      by_cases ht1 : (b.getD o 0 == 1) = true
      · -- tag 0x01: array
        rw [if_pos ht1] at h
        split at h
        · exact absurd h (by simp)
        next xs p1 mx1 harr =>
          simp only [Prod.mk.injEq, Except.ok.injEq] at h
          obtain ⟨⟨hv1, hp1⟩, hmx⟩ := h
          obtain ⟨ha, hb2, hc⟩ := iha b (o + 1) xs p1 mx1 harr
          omega
      rw [if_neg ht1] at h
      by_cases ht2 : (b.getD o 0 == 2) = true
      · -- tag 0x02: object
        rw [if_pos ht2] at h
        split at h
        · exact absurd h (by simp)
        next es p1 mx1 hobj =>
          simp only [Prod.mk.injEq, Except.ok.injEq] at h
          obtain ⟨⟨hv1, hp1⟩, hmx⟩ := h
          obtain ⟨ha, hb2, hc⟩ := iho b (o + 1) es p1 mx1 hobj
          omega
      rw [if_neg ht2] at h
      by_cases ht0 : (b.getD o 0 == 0) = true
      · -- tag 0x00: null
        rw [if_pos ht0] at h
        simp only [Prod.mk.injEq, Except.ok.injEq] at h
        obtain ⟨⟨hv1, hp1⟩, hmx⟩ := h
        omega
      rw [if_neg ht0, if_neg ht1, if_neg ht2] at h
      by_cases ht3 : (b.getD o 0 == 3) = true
      · -- tag 0x03: double
        rw [if_pos ht3] at h
        split at h
        · exact absurd h (by simp)
        next x p1 hd1 =>
          obtain ⟨hp1, hlen⟩ := decodeDouble_ok hd1
          simp only [Prod.mk.injEq, Except.ok.injEq] at h
          obtain ⟨⟨hv1, hp2⟩, hmx⟩ := h
          omega
      rw [if_neg ht3] at h
      by_cases ht4 : (b.getD o 0 == 4) = true
      · -- tag 0x04: string
        rw [if_pos ht4] at h
        split at h
        · exact absurd h (by simp)
        next x p1 hs1 =>
          obtain ⟨hp1, hlen⟩ := decodeString_ok hs1
          simp only [Prod.mk.injEq, Except.ok.injEq] at h
          obtain ⟨⟨hv1, hp2⟩, hmx⟩ := h
          omega
      rw [if_neg ht4] at h
      exact absurd h (by simp)
    · -- decodeArray
      intro b o r p mx h
      rw [decodeArray] at h
      split at h
      · exact absurd h (by simp)
      next n o1 h32 =>
        obtain ⟨ho1, hb4⟩ := readUInt32BE_ok h32
        cases hl : decodeItemsLoop fuel b o1 n with
        | mk res mx2 =>
          rw [hl] at h
          dsimp only at h
          injection h with h1 h2
          subst h1
          obtain ⟨ha, hb2, hc⟩ := ihl b o1 n r p mx2 (by omega) hl
          omega
    · -- decodeItemsLoop
      intro b o c r p mx hob h
      cases c with
      | zero =>
        rw [decodeItemsLoop] at h
        simp only [Prod.mk.injEq, Except.ok.injEq] at h
        obtain ⟨⟨hv1, hp1⟩, hmx⟩ := h
        omega
      | succ c =>
        rw [decodeItemsLoop] at h
        split at h
        · exact absurd h (by simp)
        next v1 o1 mx1 hval =>
          split at h
          · exact absurd h (by simp)
          next vs o2 mx2 hrest =>
            simp only [Prod.mk.injEq, Except.ok.injEq] at h
            obtain ⟨⟨hv1, hp1⟩, hmx⟩ := h
            obtain ⟨ha1, hb1, hc1⟩ := ihv b o v1 o1 mx1 hval
            obtain ⟨ha2, hb2, hc2⟩ := ihl b o1 c vs o2 mx2 (by omega) hrest
            omega
    · -- decodeObject
      intro b o r p mx h
      rw [decodeObject] at h
      split at h
      · exact absurd h (by simp)
      next n o1 h32 =>
        obtain ⟨ho1, hb4⟩ := readUInt32BE_ok h32
        split at h
        · exact absurd h (by simp)
        next es p1 mx2 hent =>
          simp only [Prod.mk.injEq, Except.ok.injEq] at h
          obtain ⟨⟨hv1, hp1⟩, hmx⟩ := h
          obtain ⟨ha, hb2, hc⟩ := ihe b o1 n es p1 mx2 (by omega) hent
          omega
    · -- decodeEntriesLoop
      intro b o c r p mx hob h
      cases c with
      | zero =>
        rw [decodeEntriesLoop] at h
        simp only [Prod.mk.injEq, Except.ok.injEq] at h
        obtain ⟨⟨hv1, hp1⟩, hmx⟩ := h
        omega
      | succ c =>
        rw [decodeEntriesLoop] at h
        split at h
        · exact absurd h (by simp)
        next kl o1 h16 =>
          obtain ⟨ho1, hb2⟩ := readUInt16BE_ok h16
          dsimp only at h
          split at h
          · exact absurd h (by simp)
          next v1 o3 mx1 hval =>
            split at h
            · exact absurd h (by simp)
            next es o4 mx2 hrest =>
              simp only [Prod.mk.injEq, Except.ok.injEq] at h
              obtain ⟨⟨hv1, hp1⟩, hmx⟩ := h
              obtain ⟨ha1, hb1, hc1⟩ := ihv b (o1 + kl) v1 o3 mx1 hval
              obtain ⟨ha2, hb3, hc2⟩ := ihe b o3 c es o4 mx2 (by omega) hrest
              omega


/-- C2 (amended): every bounds-checked read (tag byte, u16/u32 fields,
bool/int32/double payloads, string contents) fails with `BufferUnderrun`
before consuming anything, but the map-entry key-byte read is not
bounds-checked: the key is silently clamped and the cursor may pass the end
of the buffer.  Every such overrun makes the decode fail with
`BufferUnderrun` at the next read, so whenever decoding *succeeds* the
cursor never exceeded the buffer's length at any point. -/
theorem c2_cursor_bounded_on_success :
    ∀ (b : Bytes) (v : Value) (mx : Nat),
      decodeZunT b = (.ok v, mx) → mx ≤ b.length := by
  intro b v mx h
  unfold decodeZunT at h
  split at h
  · exact absurd h (by simp)
  next v1 p1 mx1 hdec =>
    injection h with h1 h2
    subst h2
    exact ((decodeOk_bounds (b.length + 1)).1 b 0 v1 p1 mx1 hdec).2.2

/-- C2 (witness): a successful decode of the empty-list buffer, whose
cursor high-water mark 5 stays within the 5-byte buffer. -/
theorem c2_cursor_bounded_on_success_witness :
    (decodeZunT [1, 0, 0, 0, 0]).2 ≤ ([1, 0, 0, 0, 0] : Bytes).length :=
  c2_cursor_bounded_on_success [1, 0, 0, 0, 0] (.vList []) (decodeZunT [1, 0, 0, 0, 0]).2 rfl


/-! ## Appending bytes after a complete value

`ZunDecoder.decode` never looks at bytes past the value it parses, so a
successful decode is stable under appending trailing bytes.  The lemmas
below push a successful read or parse from a buffer to any extension of it
(and to any larger fuel bound). -/

/-- A fixed-width slice staying inside `b` is unchanged by appending. -/
theorem dropTake_append {b t : Bytes} {o n : Nat} (h : o + n ≤ b.length) :
    ((b ++ t).drop o).take n = (b.drop o).take n := by
  rw [List.drop_append_of_le_length (by omega)]
  rw [List.take_append_of_le_length (by rw [List.length_drop]; omega)]

/-- A successful `readUInt32BE` is unchanged by appending bytes. -/
theorem readUInt32BE_append {b t : Bytes} {o n p : Nat}
    (h : readUInt32BE b o = .ok (n, p)) : readUInt32BE (b ++ t) o = .ok (n, p) := by
  obtain ⟨hp, hb⟩ := readUInt32BE_ok h
  unfold readUInt32BE at h ⊢
  rw [if_neg (by omega)] at h
  rw [if_neg (by rw [List.length_append]; omega), dropTake_append hb]
  exact h

/-- A successful `readUInt16BE` is unchanged by appending bytes. -/
theorem readUInt16BE_append {b t : Bytes} {o n p : Nat}
    (h : readUInt16BE b o = .ok (n, p)) : readUInt16BE (b ++ t) o = .ok (n, p) := by
  obtain ⟨hp, hb⟩ := readUInt16BE_ok h
  unfold readUInt16BE at h ⊢
  rw [if_neg (by omega)] at h
  rw [if_neg (by rw [List.length_append]; omega), dropTake_append hb]
  exact h

/-- A successful `decodeBoolean` is unchanged by appending bytes. -/
theorem decodeBoolean_append {b t : Bytes} {o : Nat} {x : Bool} {p : Nat}
    (h : decodeBoolean b o = .ok (x, p)) : decodeBoolean (b ++ t) o = .ok (x, p) := by
  obtain ⟨hp, hb⟩ := decodeBoolean_ok h
  unfold decodeBoolean at h ⊢
  rw [if_neg (by omega)] at h
  rw [if_neg (by rw [List.length_append]; omega), List.getD_append b t 0 o (by omega)]
  exact h

/-- A successful `decodeInt32` is unchanged by appending bytes. -/
theorem decodeInt32_append {b t : Bytes} {o x p : Nat}
    (h : decodeInt32 b o = .ok (x, p)) : decodeInt32 (b ++ t) o = .ok (x, p) := by
  obtain ⟨hp, hb⟩ := decodeInt32_ok h
  unfold decodeInt32 at h ⊢
  rw [if_neg (by omega)] at h
  rw [if_neg (by rw [List.length_append]; omega), dropTake_append hb]
  exact h

/-- A successful `decodeDouble` is unchanged by appending bytes. -/
theorem decodeDouble_append {b t : Bytes} {o x p : Nat}
    (h : decodeDouble b o = .ok (x, p)) : decodeDouble (b ++ t) o = .ok (x, p) := by
  obtain ⟨hp, hb⟩ := decodeDouble_ok h
  unfold decodeDouble at h ⊢
  rw [if_neg (by omega)] at h
  rw [if_neg (by rw [List.length_append]; omega), dropTake_append hb]
  exact h

/-- A successful `decodeString` is unchanged by appending bytes. -/
theorem decodeString_append {b t : Bytes} {o : Nat} {s : Bytes} {p : Nat}
    (h : decodeString b o = .ok (s, p)) : decodeString (b ++ t) o = .ok (s, p) := by
  unfold decodeString at h ⊢
  split at h
  · exact absurd h (by simp)
  next n o1 h32 =>
    rw [readUInt32BE_append h32]
    dsimp only
    split at h
    · exact absurd h (by simp)
    next hlen =>
      rw [if_neg (by rw [List.length_append]; omega), dropTake_append (by omega)]
      exact h


/-- A successful parse is stable under appending trailing bytes to the
buffer and enlarging the fuel bound: the decoder only ever inspects bytes
before the offset it ends at. -/
theorem decodeExt_ok (fuel : Nat) :
    ∀ g, fuel ≤ g →
    (∀ b t o r, (decodeValue fuel b o).1 = .ok r →
        (decodeValue g (b ++ t) o).1 = .ok r) ∧
    (∀ b t o r, (decodeArray fuel b o).1 = .ok r →
        (decodeArray g (b ++ t) o).1 = .ok r) ∧
    (∀ b t o c r, (decodeItemsLoop fuel b o c).1 = .ok r →
        (decodeItemsLoop g (b ++ t) o c).1 = .ok r) ∧
    (∀ b t o r, (decodeObject fuel b o).1 = .ok r →
        (decodeObject g (b ++ t) o).1 = .ok r) ∧
    (∀ b t o c r, (decodeEntriesLoop fuel b o c).1 = .ok r →
        (decodeEntriesLoop g (b ++ t) o c).1 = .ok r) := by
  induction fuel with
  | zero =>
    intro g hg
    refine ⟨?_, ?_, ?_, ?_, ?_⟩
    · intro b t o r h; exact absurd h (by simp [decodeValue])
    · intro b t o r h; exact absurd h (by simp [decodeArray])
    · intro b t o c r h; exact absurd h (by simp [decodeItemsLoop])
    · intro b t o r h; exact absurd h (by simp [decodeObject])
    · intro b t o c r h; exact absurd h (by simp [decodeEntriesLoop])
  | succ fuel ih =>
    intro g hg
    match g, hg with
    | g + 1, hg =>
    have hg2 : fuel ≤ g := by omega
    obtain ⟨ihv, iha, ihl, iho, ihe⟩ := ih g hg2
    refine ⟨?_, ?_, ?_, ?_, ?_⟩
    · -- decodeValue
      intro b t o r h
      rw [decodeValue] at h ⊢
      split at h
      · simp at h
      next hlt =>
      rw [if_neg (show ¬ (b ++ t).length ≤ o by rw [List.length_append]; omega)]
      dsimp only at h ⊢
      rw [List.getD_append b t 0 o (by omega)]
      by_cases ht1 : (b.getD o 0 == 1) = true
      · rw [if_pos ht1] at h ⊢
        cases harr : decodeArray fuel b (o + 1) with
        | mk res mx1 =>
          rw [harr] at h
          cases res with
          | error e => simp at h
          | ok rp =>
            dsimp only at h
            have hg3 := iha b t (o + 1) rp (by rw [harr])
            cases harr2 : decodeArray g (b ++ t) (o + 1) with
            | mk res2 mx2 =>
              rw [harr2] at hg3
              dsimp only at hg3
              subst hg3
              obtain ⟨xs, p1⟩ := rp
              dsimp only
              exact h
      rw [if_neg ht1] at h ⊢
      by_cases ht2 : (b.getD o 0 == 2) = true
      · rw [if_pos ht2] at h ⊢
        cases hobj : decodeObject fuel b (o + 1) with
        | mk res mx1 =>
          rw [hobj] at h
          cases res with
          | error e => simp at h
          | ok rp =>
            dsimp only at h
            have hg3 := iho b t (o + 1) rp (by rw [hobj])
            cases hobj2 : decodeObject g (b ++ t) (o + 1) with
            | mk res2 mx2 =>
              rw [hobj2] at hg3
              dsimp only at hg3
              subst hg3
              obtain ⟨es, p1⟩ := rp
              dsimp only
              exact h
      rw [if_neg ht2] at h ⊢
      by_cases ht0 : (b.getD o 0 == 0) = true
      · rw [if_pos ht0] at h ⊢
        exact h
      rw [if_neg ht0, if_neg ht1, if_neg ht2] at h ⊢
      by_cases ht3 : (b.getD o 0 == 3) = true
      · rw [if_pos ht3] at h ⊢
        cases hd : decodeDouble b (o + 1) with
        | error e => rw [hd] at h; simp at h
        | ok rp =>
          obtain ⟨x, p1⟩ := rp
          rw [hd] at h
          rw [decodeDouble_append hd]
          exact h
      rw [if_neg ht3] at h ⊢
      by_cases ht4 : (b.getD o 0 == 4) = true
      · rw [if_pos ht4] at h ⊢
        cases hs : decodeString b (o + 1) with
        | error e => rw [hs] at h; simp at h
        | ok rp =>
          obtain ⟨x, p1⟩ := rp
          rw [hs] at h
          rw [decodeString_append hs]
          exact h
      rw [if_neg ht4] at h
      simp at h
    · -- decodeArray
      intro b t o r h
      rw [decodeArray] at h ⊢
      split at h
      · simp at h
      next n o1 h32 =>
        rw [readUInt32BE_append h32]
        dsimp only
        cases hl : decodeItemsLoop fuel b o1 n with
        | mk res mx1 =>
          rw [hl] at h
          dsimp only at h
          have hg3 := ihl b t o1 n r (by rw [hl]; exact h)
          cases hl2 : decodeItemsLoop g (b ++ t) o1 n with
          | mk res2 mx2 =>
            rw [hl2] at hg3
            dsimp only at hg3 ⊢
            exact hg3
    · -- decodeItemsLoop
      intro b t o c r h
      cases c with
      | zero =>
        rw [decodeItemsLoop] at h ⊢
        exact h
      | succ c =>
        rw [decodeItemsLoop] at h ⊢
        split at h
        · simp at h
        next v1 o1 mx1 hval =>
          have hv2 := ihv b t o (v1, o1) (by rw [hval])
          cases hval2 : decodeValue g (b ++ t) o with
          | mk res2 mx2 =>
            rw [hval2] at hv2
            dsimp only at hv2
            subst hv2
            dsimp only
            split at h
            · simp at h
            next vs o2 mx3 hrest =>
              dsimp only at h
              have hr2 := ihl b t o1 c (vs, o2) (by rw [hrest])
              cases hrest2 : decodeItemsLoop g (b ++ t) o1 c with
              | mk res3 mx4 =>
                rw [hrest2] at hr2
                dsimp only at hr2
                subst hr2
                dsimp only
                exact h
    · -- decodeObject
      intro b t o r h
      rw [decodeObject] at h ⊢
      split at h
      · simp at h
      next n o1 h32 =>
        rw [readUInt32BE_append h32]
        dsimp only
        split at h
        · simp at h
        next es p1 mx1 hent =>
          have hg3 := ihe b t o1 n (es, p1) (by rw [hent])
          cases hent2 : decodeEntriesLoop g (b ++ t) o1 n with
          | mk res2 mx2 =>
            rw [hent2] at hg3
            dsimp only at hg3
            subst hg3
            dsimp only
            exact h
    · -- decodeEntriesLoop
      intro b t o c r h
      cases c with
      | zero =>
        rw [decodeEntriesLoop] at h ⊢
        exact h
      | succ c =>
        rw [decodeEntriesLoop] at h ⊢
        split at h
        · simp at h
        next kl o1 h16 =>
          rw [readUInt16BE_append h16]
          dsimp only at h ⊢
          split at h
          · simp at h
          next v1 o3 mx1 hval =>
            -- the entry value parse succeeded at offset o1 + kl, so the
            -- key slice stayed inside the original buffer
            obtain ⟨hbo, hb3, _⟩ :=
              (decodeOk_bounds fuel).1 b (o1 + kl) v1 o3 mx1 hval
            rw [dropTake_append (by omega)]
            have hv2 := ihv b t (o1 + kl) (v1, o3) (by rw [hval])
            cases hval2 : decodeValue g (b ++ t) (o1 + kl) with
            | mk res2 mx2 =>
              rw [hval2] at hv2
              dsimp only at hv2
              subst hv2
              dsimp only
              split at h
              · simp at h
              next es o4 mx3 hrest =>
                dsimp only at h
                have hr2 := ihe b t o3 c (es, o4) (by rw [hrest])
                cases hrest2 : decodeEntriesLoop g (b ++ t) o3 c with
                | mk res3 mx4 =>
                  rw [hrest2] at hr2
                  dsimp only at hr2
                  subst hr2
                  dsimp only
                  exact h


/-- C8: `decode` does not require the buffer to be fully consumed: if a
buffer decodes to a value, any buffer extending it with trailing bytes
decodes to the same value -- bytes after one complete top-level value are
silently ignored, never an error. -/
theorem c8_trailing_bytes_ignored :
    ∀ (b t : Bytes) (v : Value), decodeZun b = .ok v → decodeZun (b ++ t) = .ok v := by
  intro b t v h
  unfold decodeZun at h ⊢
  cases hd : (decodeValue (b.length + 1) b 0).1 with
  | error e => rw [hd] at h; simp at h
  | ok rp =>
    obtain ⟨v1, p1⟩ := rp
    rw [hd] at h
    have hext := ((decodeExt_ok (b.length + 1)) ((b ++ t).length + 1)
      (by rw [List.length_append]; omega)).1 b t 0 (v1, p1) hd
    rw [hext]
    exact h

/-- C8 (witness): the empty-list buffer still decodes to the empty list
after appending a trailing byte. -/
theorem c8_trailing_bytes_ignored_witness :
    decodeZun ([1, 0, 0, 0, 0] ++ [9]) = .ok (.vList []) :=
  c8_trailing_bytes_ignored [1, 0, 0, 0, 0] [9] (.vList []) rfl

/-! ## Claim C5: the envelope policy of `decodeResponse` -/

/-- A `"data"`/`"traceback"` field survives `asListField` exactly when it is
present and a `List`, and then it is copied unchanged. -/
theorem asListField_eq_some (ov : Option Value) (l : List Value) :
    asListField ov = some l ↔ ov = some (.vList l) := by
  cases ov with
  | none => simp [asListField]
  | some v => cases v <;> simp [asListField]

/-- C5: `decodeResponse` runs the decoder and propagates any failure
unchanged; a successful decode that is not a `Map` (a `List`, `Null` or any
primitive) yields the empty envelope; a decoded `Map` yields an envelope
whose `data` field is present exactly when the map's `"data"` entry exists
and is a `List` (and then equals that list), likewise for `"traceback"`;
no shape of those entries is ever an error. -/
theorem c5_decodeResponse_policy (b : Bytes) :
    (∀ e, decodeZun b = .error e → decodeResponse b = .error e) ∧
    (∀ v, decodeZun b = .ok v → (∀ m, v ≠ .vMap m) → decodeResponse b = .ok {}) ∧
    (∀ m, decodeZun b = .ok (.vMap m) →
        decodeResponse b =
          .ok { data := asListField (objGet m dataKey),
                traceback := asListField (objGet m tracebackKey) } ∧
        (∀ l, asListField (objGet m dataKey) = some l ↔
              objGet m dataKey = some (.vList l)) ∧
        (∀ l, asListField (objGet m tracebackKey) = some l ↔
              objGet m tracebackKey = some (.vList l))) := by
  unfold decodeZun decodeResponse
  cases h : (decodeValue (b.length + 1) b 0).1 with
  | error e =>
    refine ⟨fun e2 he => ?_, fun v hv hne => ?_, fun m hm => ?_⟩
    · simpa using he
    · simp at hv
    · simp at hm
  | ok rp =>
    obtain ⟨v0, p⟩ := rp
    refine ⟨fun e2 he => absurd he (by simp), fun v hv hne => ?_, fun m hm => ?_⟩
    · have hv2 : v0 = v := Except.ok.inj hv
      subst hv2
      cases v0 with
      | vMap m => exact absurd rfl (hne m)
      | vNull => rfl
      | vBool x => rfl
      | vNum x => rfl
      | vText x => rfl
      | vList x => rfl
    · have hv2 : v0 = .vMap m := Except.ok.inj hm
      subst hv2
      exact ⟨rfl, fun l => asListField_eq_some _ l, fun l => asListField_eq_some _ l⟩

/-- C5 (witness): an unknown-tag failure propagates, a top-level list gives
the empty envelope, and an empty map gives the field projections. -/
theorem c5_decodeResponse_policy_witness :
    decodeResponse [255] = .error (.unknownTag 255) ∧
    decodeResponse [1, 0, 0, 0, 0] = .ok {} ∧
    decodeResponse [2, 0, 0, 0, 0] =
      .ok { data := asListField (objGet [] dataKey),
            traceback := asListField (objGet [] tracebackKey) } :=
  ⟨(c5_decodeResponse_policy [255]).1 (.unknownTag 255) rfl,
   (c5_decodeResponse_policy [1, 0, 0, 0, 0]).2.1 (.vList []) rfl
     (fun _ h => Value.noConfusion h),
   ((c5_decodeResponse_policy [2, 0, 0, 0, 0]).2.2 [] rfl).1⟩

end Zun
